import Mathlib

/-!
Verification development for the auto-wall-companion module.

The two pipelines under verification are embedded shallowly from the
source file src/ts/main.ts (class WallUtils):

* wall synchronization: processWallImport (JSON array payload, identity
  stripping, batched createEmbeddedDocuments calls of size 100, padding
  confirmation gate) and getWallsJson (serialization with the same
  padding gate);
* tile compositing: exportSceneTilesAsImage (bounds over all tiles with
  JS Infinity seeds and falsy-or field fallbacks, the 1-unit degeneracy
  bump, the 16384 canvas ceiling, priority-ordered image source
  resolution, and per-tile loaded/failed counters).

External collaborators (the Foundry host, the DOM canvas, the clipboard)
are modelled by explicit parameters; each such model is documented at
its definition.  Machine numbers that matter (the JS number semantics of
the bounds computation, where Infinity and NaN are reachable) are
modelled by the XNum type below; all tile coordinates themselves are
integral, as in every reachable execution of the claims considered.
-/

set_option maxHeartbeats 1000000

namespace AutoWallCompanion

/-- JSON-like field values carried by a wall record (spec: geometry
fields are plain numeric/enum values; the wall coordinate array is a
flat list of numbers). -/
inductive JVal
  | num (q : Rat)
  | str (s : String)
  | bool (b : Bool)
  | null
  | nums (qs : List Rat)
deriving DecidableEq

/-- A wall record is a plain mapping of named fields, kept in insertion
order, as produced by JSON.parse on one array element or by the host
document serialization. -/
abbrev WallRecord := List (String × JVal)

/-- Identity stripping performed by processWallImport before creation:
the destructuring pattern removes the _id property and keeps every other
field unchanged and in order. -/
def stripId (r : WallRecord) : WallRecord :=
  r.filter (fun f => !(f.1 == "_id"))

/-- The nested document record of a tile (tileData.document), with the
fields that exportSceneTilesAsImage reads from it.  A missing field is
none (JS undefined). -/
structure TileDoc where
  x : Option Int
  y : Option Int
  width : Option Int
  height : Option Int
  texSrc : Option String
  img : Option String
deriving DecidableEq

/-- A tile as read by exportSceneTilesAsImage: the direct properties it
probes, plus the optional nested document.  texSrc stands for
texture?.src (an absent texture object and an absent src field both
yield none). -/
structure Tile where
  x : Option Int
  y : Option Int
  width : Option Int
  height : Option Int
  texSrc : Option String
  img : Option String
  doc : Option TileDoc
deriving DecidableEq

/-- A host scene as the two pipelines read it: the coordinate-space
padding, the wall collection (each wall already in its plain toObject
form, which the host serialization returns verbatim for plain records),
and the tile collection. -/
structure Scene where
  padding : Rat
  walls : List WallRecord
  tiles : List Tile
deriving DecidableEq

/-- JS truthiness fallback for numeric fields: a || b, where 0 is falsy
and a missing field (undefined) is falsy. -/
def jsOrNum (a : Option Int) (b : Int) : Int :=
  match a with
  | some v => if v = 0 then b else v
  | none => b

/-- Effective tile width: tileData.width || tileData.document?.width || 0. -/
def Tile.effWidth (t : Tile) : Int :=
  jsOrNum t.width (jsOrNum (t.doc.bind TileDoc.width) 0)

/-- Effective tile height: tileData.height || tileData.document?.height || 0. -/
def Tile.effHeight (t : Tile) : Int :=
  jsOrNum t.height (jsOrNum (t.doc.bind TileDoc.height) 0)

/-- Effective tile x: tileData.x || tileData.document?.x || 0. -/
def Tile.effX (t : Tile) : Int :=
  jsOrNum t.x (jsOrNum (t.doc.bind TileDoc.x) 0)

/-- Effective tile y: tileData.y || tileData.document?.y || 0. -/
def Tile.effY (t : Tile) : Int :=
  jsOrNum t.y (jsOrNum (t.doc.bind TileDoc.y) 0)

/-- JS truthiness of an optional string: undefined and the empty string
are falsy. -/
def truthyStr : Option String → Bool
  | some s => !(s == "")
  | none => false

/-- Image source resolution of exportSceneTilesAsImage: the if/else-if
chain trying, in order, the direct texture reference, the nested
document texture reference, the direct img reference, then the nested
document img reference; none if all four are falsy. -/
def Tile.textureSrc (t : Tile) : Option String :=
  if truthyStr t.texSrc then t.texSrc
  else if truthyStr (t.doc.bind TileDoc.texSrc) then t.doc.bind TileDoc.texSrc
  else if truthyStr t.img then t.img
  else if truthyStr (t.doc.bind TileDoc.img) then t.doc.bind TileDoc.img
  else none

/-- The subset of JS number semantics exercised by the bounds
computation: integers extended with the two infinities (the loop seeds)
and NaN (reachable as Infinity minus Infinity). -/
inductive XNum
  | negInf
  | fin (n : Int)
  | posInf
  | nan
deriving DecidableEq

/-- Math.min on XNum. -/
def XNum.jmin : XNum → XNum → XNum
  | .nan, _ => .nan
  | _, .nan => .nan
  | .negInf, _ => .negInf
  | _, .negInf => .negInf
  | .posInf, b => b
  | a, .posInf => a
  | .fin a, .fin b => .fin (min a b)

/-- Math.max on XNum. -/
def XNum.jmax : XNum → XNum → XNum
  | .nan, _ => .nan
  | _, .nan => .nan
  | .posInf, _ => .posInf
  | _, .posInf => .posInf
  | .negInf, b => b
  | a, .negInf => a
  | .fin a, .fin b => .fin (max a b)

/-- JS addition on XNum; opposite infinities give NaN. -/
def XNum.jadd : XNum → XNum → XNum
  | .nan, _ => .nan
  | _, .nan => .nan
  | .posInf, .negInf => .nan
  | .negInf, .posInf => .nan
  | .posInf, _ => .posInf
  | _, .posInf => .posInf
  | .negInf, _ => .negInf
  | _, .negInf => .negInf
  | .fin a, .fin b => .fin (a + b)

/-- JS negation on XNum. -/
def XNum.jneg : XNum → XNum
  | .nan => .nan
  | .posInf => .negInf
  | .negInf => .posInf
  | .fin n => .fin (-n)

/-- JS subtraction on XNum. -/
def XNum.jsub (a b : XNum) : XNum :=
  a.jadd b.jneg

/-- Math.ceil on XNum; the identity on integral values, infinities and
NaN are preserved. -/
def XNum.jceil : XNum → XNum
  | .nan => .nan
  | .posInf => .posInf
  | .negInf => .negInf
  | .fin n => .fin n

/-- The JS comparison a less-or-equal b; every comparison with NaN is
false. -/
def XNum.jle : XNum → XNum → Bool
  | .nan, _ => false
  | _, .nan => false
  | .negInf, _ => true
  | _, .posInf => true
  | _, .negInf => false
  | .posInf, _ => false
  | .fin a, .fin b => decide (a ≤ b)

/-- The JS comparison a strictly-greater b; every comparison with NaN is
false. -/
def XNum.jgt : XNum → XNum → Bool
  | .nan, _ => false
  | _, .nan => false
  | .posInf, .posInf => false
  | .posInf, _ => true
  | _, .posInf => false
  | .negInf, _ => false
  | _, .negInf => true
  | .fin a, .fin b => decide (b < a)

/-- The four running bounds of the first pass of
exportSceneTilesAsImage. -/
structure Bounds where
  minX : XNum
  minY : XNum
  maxX : XNum
  maxY : XNum
deriving DecidableEq

/-- One iteration of the first pass: extend each bound by the effective
position and extent of one tile. -/
def boundsStep (b : Bounds) (t : Tile) : Bounds :=
  ⟨b.minX.jmin (XNum.fin t.effX),
   b.minY.jmin (XNum.fin t.effY),
   b.maxX.jmax (XNum.fin (t.effX + t.effWidth)),
   b.maxY.jmax (XNum.fin (t.effY + t.effHeight))⟩

/-- The first pass over all tiles, seeded with the Infinity values of
the source (minX = Infinity, minY = Infinity, maxX = -Infinity,
maxY = -Infinity). -/
def rawBounds (ts : List Tile) : Bounds :=
  ts.foldl boundsStep ⟨XNum.posInf, XNum.posInf, XNum.negInf, XNum.negInf⟩

/-- The bounds actually used for the canvas: the first pass followed by
the degeneracy bump (if maxX is less-or-equal minX then maxX becomes
minX plus one, and likewise for y). -/
def computeBounds (ts : List Tile) : Bounds :=
  let b := rawBounds ts
  ⟨b.minX,
   b.minY,
   if b.maxX.jle b.minX then b.minX.jadd (XNum.fin 1) else b.maxX,
   if b.maxY.jle b.minY then b.minY.jadd (XNum.fin 1) else b.maxY⟩

/-- canvasWidth = Math.ceil(maxX - minX). -/
def canvasWidth (bd : Bounds) : XNum :=
  (bd.maxX.jsub bd.minX).jceil

/-- canvasHeight = Math.ceil(maxY - minY). -/
def canvasHeight (bd : Bounds) : XNum :=
  (bd.maxY.jsub bd.minY).jceil

/-- The per-tile behaviour of the external image loading and canvas
drawing collaborators: the image load succeeds and the draw succeeds,
the load errors, the draw throws, or some other per-tile exception is
raised.  Indexed by tile position in the collection. -/
inductive TileOutcome
  | ok
  | loadError
  | drawError
  | thrown
deriving DecidableEq

/-- The destination rectangle of one successful drawImage call:
(tileX - minX, tileY - minY) scaled to (tileWidth, tileHeight). -/
structure DrawCmd where
  dx : XNum
  dy : XNum
  dw : Int
  dh : Int
deriving DecidableEq

/-- What one iteration of the tile loop contributed: a drawn image (the
loadedCount counter) or a failure of any kind (the failedCount
counter). -/
inductive TileStep
  | drawn (cmd : DrawCmd)
  | failed
deriving DecidableEq

/-- Whether a step incremented loadedCount. -/
def TileStep.isDrawn : TileStep → Bool
  | .drawn _ => true
  | .failed => false

/-- One iteration of the tile loop: resolve the image source (failure
counts the tile as failed), then load and draw through the external
collaborators (any load error, draw error, or per-tile exception counts
the tile as failed); a successful load and draw records the draw
rectangle and counts the tile as loaded. -/
def tileStep (env : Nat → TileOutcome) (bd : Bounds) (i : Nat) (t : Tile) : TileStep :=
  match t.textureSrc with
  | none => .failed
  | some _ =>
    match env i with
    | .ok => .drawn ⟨(XNum.fin t.effX).jsub bd.minX, (XNum.fin t.effY).jsub bd.minY,
        t.effWidth, t.effHeight⟩
    | _ => .failed

/-- The sequential tile loop from position i onward; each iteration is
awaited before the next begins, so the steps appear in collection
order. -/
def processTilesFrom (env : Nat → TileOutcome) (bd : Bounds) : Nat → List Tile → List TileStep
  | _, [] => []
  | i, t :: ts => tileStep env bd i t :: processTilesFrom env bd (i + 1) ts

/-- The whole tile loop of exportSceneTilesAsImage. -/
def processTiles (env : Nat → TileOutcome) (bd : Bounds) (ts : List Tile) : List TileStep :=
  processTilesFrom env bd 0 ts

/-- The loadedCount counter after the loop. -/
def loadedCount (steps : List TileStep) : Nat :=
  steps.countP TileStep.isDrawn

/-- The failedCount counter after the loop. -/
def failedCount (steps : List TileStep) : Nat :=
  steps.countP (fun st => !(TileStep.isDrawn st))

/-- Outcome of exportSceneTilesAsImage up to the point where the canvas
is handed to the encoding and file-saving collaborators.  sizeLimit is
the early return on the 16384 ceiling: it is raised before the canvas
dimensions are ever assigned, so it carries only the computed (never
applied) dimensions that appear in the error notification.  done
carries the assigned canvas dimensions and the per-tile steps. -/
inductive ExportResult
  | noScene
  | noTiles
  | sizeLimit (w h : XNum)
  | done (w h : XNum) (steps : List TileStep)
deriving DecidableEq

/-- Shallow embedding of exportSceneTilesAsImage: no current scene and
an empty tile collection return early; then the bounds, the degeneracy
bump and the canvas dimensions are computed; dimensions above 16384
fail before any canvas allocation; otherwise the tile loop runs.  The
2d-context-unavailable early return and the blob encoding tail, both
pure collaborator plumbing after the last claim-relevant step, are not
modelled. -/
def exportSceneTilesAsImage (env : Nat → TileOutcome) (scene? : Option Scene) : ExportResult :=
  match scene? with
  | none => .noScene
  | some sc =>
    if sc.tiles.isEmpty then .noTiles
    else
      let bd := computeBounds sc.tiles
      let w := canvasWidth bd
      let h := canvasHeight bd
      if w.jgt (XNum.fin 16384) || h.jgt (XNum.fin 16384) then .sizeLimit w h
      else .done w h (processTiles env bd sc.tiles)

/-- Modelled from the spec: the host's embedded-document creation (not
part of this repository) assigns a fresh identity to each created
record and persists the submitted plain fields unchanged (spec section
3: the host assigns new identity on creation; section 6: the bulk
creation call accepts an array of plain records). -/
def hostCreateRecord (n : Nat) (r : WallRecord) : WallRecord :=
  ("_id", JVal.str (toString n)) :: stripId r

/-- Host creation of one batch, with sequentially assigned identities. -/
def assignIds (start : Nat) : List WallRecord → List WallRecord
  | [] => []
  | r :: rs => hostCreateRecord start r :: assignIds (start + 1) rs

/-- The batch slicing of the import loop: for i from 0 step bs, the
slice from i of length at most bs. -/
def chunks (bs : Nat) : List α → List (List α)
  | [] => []
  | x :: xs =>
    if h : bs = 0 then []
    else (x :: xs).take bs :: chunks bs ((x :: xs).drop bs)
termination_by l => l.length
decreasing_by
  rw [List.length_drop]
  have h1 : 0 < bs := Nat.pos_of_ne_zero h
  simp only [List.length_cons]
  omega

/-- The state produced by the batched creation loop of
processWallImport: the calls issued so far (each recording the size of
the destination wall collection at the moment it was issued, and the
batch it carried), the createdCount counter, the error message of a
failed creation call (caught by the surrounding catch and shown in the
error notification), and the destination scene. -/
structure BatchRun where
  calls : List (Nat × List WallRecord)
  created : Nat
  err : Option String
  final : Scene
deriving DecidableEq

/-- The batched creation loop: one createEmbeddedDocuments call per
batch, awaited in order.  ok gives the external host's success verdict
per call index and emsg the message of the error it raises on failure;
ids is the host's fresh identity supply.  A successful call appends the
created documents to the scene and advances createdCount by the batch
length; a failing call ends the loop at the current count with the
host's error surfaced. -/
def runImportBatches (ok : Nat → Bool) (emsg : Nat → String) :
    Nat → Nat → Nat → Scene → List (List WallRecord) → BatchRun
  | _, _, created, s, [] => ⟨[], created, none, s⟩
  | ids, idx, created, s, b :: rest =>
    if ok idx then
      let r := runImportBatches ok emsg (ids + b.length) (idx + 1) (created + b.length)
        { s with walls := s.walls ++ assignIds ids b } rest
      ⟨(s.walls.length, b) :: r.calls, r.created, r.err, r.final⟩
    else
      ⟨[(s.walls.length, b)], created, some (emsg idx), s⟩

/-- The creation calls the batch loop issues when no call fails before
the list is exhausted: one call per batch, in order, each recording the
size the destination wall collection had when it was issued. -/
def callsSpec (base : Nat) : List (List WallRecord) → List (Nat × List WallRecord)
  | [] => []
  | b :: rest => (base, b) :: callsSpec (base + b.length) rest

/-- The parsed import payload: a JSON array of wall records, or any
other JSON value (rejected by the Array.isArray check). -/
inductive JsonVal
  | arr (walls : List WallRecord)
  | other

/-- How a run of processWallImport ended. -/
inductive ImpStatus
  | formatError
  | noScene
  | aborted
  | done
deriving DecidableEq

/-- Observable outcome of processWallImport: whether the padding
confirmation was surfaced, how the run ended, the creation calls it
issued, the final createdCount, a surfaced creation error, and the
destination scene afterwards. -/
structure ImportRun where
  asked : Bool
  status : ImpStatus
  calls : List (Nat × List WallRecord)
  created : Nat
  err : Option String
  final : Option Scene
deriving DecidableEq

/-- Shallow embedding of processWallImport: reject a non-array payload;
reject a missing current scene; with non-zero scene padding surface the
blocking confirmation and abort if declined (confirm is the dialog
collaborator's boolean outcome); then strip identities and run the
batched creation loop with BATCH_SIZE 100. -/
def processWallImport (ok : Nat → Bool) (emsg : Nat → String) (ids : Nat)
    (scene? : Option Scene) (confirm : Bool) (payload : JsonVal) : ImportRun :=
  match payload with
  | .other => ⟨false, .formatError, [], 0, none, scene?⟩
  | .arr walls =>
    match scene? with
    | none => ⟨false, .noScene, [], 0, none, none⟩
    | some sc =>
      if sc.padding ≠ 0 then
        if confirm then
          let r := runImportBatches ok emsg ids 0 0 sc (chunks 100 (walls.map stripId))
          ⟨true, .done, r.calls, r.created, r.err, some r.final⟩
        else ⟨true, .aborted, [], 0, none, some sc⟩
      else
        let r := runImportBatches ok emsg ids 0 0 sc (chunks 100 (walls.map stripId))
        ⟨false, .done, r.calls, r.created, r.err, some r.final⟩

/-- Observable outcome of getWallsJson: whether the padding
confirmation was surfaced, and either the serialized wall collection
(the list of plain records handed to JSON.stringify; each wall's
toObject is the identity on the plain records this model stores in the
scene) or the thrown error message. -/
structure ExportWallsRun where
  asked : Bool
  result : Except String (List WallRecord)

/-- Shallow embedding of getWallsJson: throw without a scene; with
non-zero padding surface the blocking confirmation and throw if
declined; otherwise return every wall of the scene, unfiltered. -/
def getWallsJson (scene? : Option Scene) (confirm : Bool) : ExportWallsRun :=
  match scene? with
  | none => ⟨false, Except.error ("No active scene found.")⟩
  | some sc =>
    if sc.padding ≠ 0 then
      if confirm then ⟨true, Except.ok sc.walls⟩
      else ⟨true, Except.error ("Wall export cancelled.")⟩
    else ⟨false, Except.ok sc.walls⟩

/-- A concrete wall record used by witnesses. -/
def wallRecA : WallRecord :=
  [("_id", JVal.str ("w1")), ("c", JVal.nums [0, 0, 100, 0]), ("door", JVal.num 0)]

/-- A 101-record bundle used by witnesses (two batches). -/
def wallsW : List WallRecord :=
  List.replicate 101 wallRecA

/-- A scene with zero padding and no contents, used by witnesses. -/
def sEmpty : Scene :=
  ⟨0, [], []⟩

/-- A scene with non-zero padding, used by witnesses. -/
def sPad : Scene :=
  ⟨(1 : Rat) / 4, [], []⟩

/-- The first tile of the worked example of the spec. -/
def tileA : Tile :=
  ⟨some 10, some 20, some 5, some 5, some ("a.png"), none, none⟩

/-- The second tile of the worked example of the spec. -/
def tileB : Tile :=
  ⟨some 0, some 0, some 2, some 2, some ("b.png"), none, none⟩

/-- A zero-extent tile, used for the degeneracy claims. -/
def ztile : Tile :=
  ⟨some 3, some 4, some 0, some 0, some ("z.png"), none, none⟩

/-- A tile wide enough to exceed the canvas ceiling. -/
def bigTile : Tile :=
  ⟨some 1, some 1, some 20000, some 10, some ("big.png"), none, none⟩

/-- A tile carrying both a direct and a nested-document texture
reference. -/
def tileBoth : Tile :=
  ⟨some 1, some 1, some 1, some 1, some ("direct.png"), none,
    some ⟨none, none, none, none, some ("nested.png"), none⟩⟩

/-- A tile with no resolvable image source. -/
def tileNoSrc : Tile :=
  ⟨some 1, some 1, some 1, some 1, none, none, none⟩

/-- A tile whose direct x is 0 while its nested document carries x = 5. -/
def tileDocX5 : Tile :=
  ⟨some 0, some 2, some 3, some 4, some ("d.png"), none,
    some ⟨some 5, none, none, none, none, none⟩⟩

/-- The all-successful image loading environment. -/
def allOk : Nat → TileOutcome :=
  fun _ => TileOutcome.ok

/-- A zero-padding scene holding only the over-wide tile. -/
def sBig : Scene :=
  ⟨0, [], [bigTile]⟩

/-- A reference test rectangle used by witnesses. -/
def bdUnit : Bounds :=
  ⟨XNum.fin 0, XNum.fin 0, XNum.fin 1, XNum.fin 1⟩

/-- Induction along the batch slicing: a property holds of every list
if it holds of the empty list and is preserved from the bs-element tail
of any non-empty list. -/
theorem drop_induction {α : Type} (bs : Nat) (hbs : 0 < bs) {P : List α → Prop}
    (h0 : P []) (h1 : ∀ l : List α, l ≠ [] → P (l.drop bs) → P l) : ∀ l : List α, P l := by
  have key : ∀ (n : Nat) (l : List α), l.length ≤ n → P l := by
    intro n
    induction n with
    | zero =>
      intro l hl
      have he : l = [] := List.eq_nil_of_length_eq_zero (Nat.le_zero.mp hl)
      rw [he]; exact h0
    | succ n ih =>
      intro l hl
      match l with
      | [] => exact h0
      | x :: xs =>
        refine h1 _ (by simp) (ih _ ?_)
        rw [List.length_drop]
        simp only [List.length_cons] at hl ⊢
        omega
  intro l
  exact key l.length l (Nat.le_refl _)

/-- Unfolding lemma for the batch slicing on a non-empty list. -/
theorem chunks_cons {α : Type} (bs : Nat) (hbs : bs ≠ 0) (l : List α) (hl : l ≠ []) :
    chunks bs l = l.take bs :: chunks bs (l.drop bs) := by
  match l with
  | [] => exact absurd rfl hl
  | x :: xs => simp [chunks, hbs]

/-- The batch slicing of the empty list is empty. -/
theorem chunks_nil {α : Type} (bs : Nat) : chunks bs ([] : List α) = [] := by
  simp [chunks]

/-- Concatenating all batches restores the sliced list. -/
theorem chunks_join {α : Type} (bs : Nat) (hbs : 0 < bs) :
    ∀ l : List α, (chunks bs l).flatten = l := by
  refine drop_induction bs hbs ?_ ?_
  · simp [chunks]
  · intro l hl ih
    rw [chunks_cons bs (Nat.pos_iff_ne_zero.mp hbs) l hl]
    simp [ih]

/-- The number of batches is the length divided by the batch size,
rounded up. -/
theorem chunks_length {α : Type} (bs : Nat) (hbs : 0 < bs) :
    ∀ l : List α, (chunks bs l).length = (l.length + bs - 1) / bs := by
  refine drop_induction bs hbs ?_ ?_
  · rw [chunks_nil]
    simp only [List.length_nil, Nat.zero_add]
    rw [Nat.div_eq_of_lt (by omega)]
  · intro l hl ih
    rw [chunks_cons bs (Nat.pos_iff_ne_zero.mp hbs) l hl]
    rw [List.length_cons, ih, List.length_drop]
    have hlen : 0 < l.length := List.length_pos.mpr hl
    by_cases hle : l.length ≤ bs
    · have e0 : l.length - bs = 0 := by omega
      have e2 : l.length + bs - 1 = (l.length - 1) + bs := by omega
      rw [e0, e2]
      simp only [Nat.zero_add]
      rw [Nat.div_eq_of_lt (by omega), Nat.add_div_right _ hbs,
        Nat.div_eq_of_lt (by omega)]
    · push_neg at hle
      have e1 : l.length - bs + bs - 1 = (l.length - 1 - bs) + bs := by omega
      have e2 : l.length + bs - 1 = (l.length - 1) + bs := by omega
      rw [e1, e2, Nat.add_div_right _ hbs, Nat.add_div_right _ hbs]
      have e3 : l.length - 1 - bs + bs = l.length - 1 := by omega
      conv_rhs => rw [← e3, Nat.add_div_right _ hbs]

/-- Every batch carries at most bs records. -/
theorem chunks_length_le {α : Type} (bs : Nat) (hbs : 0 < bs) :
    ∀ l : List α, ∀ c ∈ chunks bs l, c.length ≤ bs := by
  refine drop_induction bs hbs ?_ ?_
  · simp [chunks]
  · intro l hl ih
    rw [chunks_cons bs (Nat.pos_iff_ne_zero.mp hbs) l hl]
    intro c hc
    rcases List.mem_cons.mp hc with h | h
    · subst h
      simp [List.length_take]
    · exact ih c h

/-- Every batch strictly before the last carries exactly bs records:
the sizes of the first j batches sum to j * bs whenever a (j+1)-st
batch exists. -/
theorem chunks_take_sum {α : Type} (bs : Nat) (hbs : 0 < bs) :
    ∀ (j : Nat) (l : List α), j < (chunks bs l).length →
      (((chunks bs l).take j).map List.length).sum = j * bs := by
  intro j
  induction j with
  | zero => intro l h; simp
  | succ j ih =>
    intro l h
    have hl : l ≠ [] := by
      intro e; rw [e, chunks_nil] at h; simp at h
    rw [chunks_cons bs (Nat.pos_iff_ne_zero.mp hbs) l hl] at h ⊢
    rw [List.length_cons] at h
    have hj : j < (chunks bs (l.drop bs)).length := by omega
    have hdne : l.drop bs ≠ [] := by
      intro e
      rw [e, chunks_nil] at hj
      simp at hj
    have hblt : bs < l.length := by
      by_contra hc
      push_neg at hc
      exact hdne (List.drop_of_length_le hc)
    rw [List.take_succ_cons, List.map_cons, List.sum_cons, ih _ hj, List.length_take]
    have hmin : min bs l.length = bs := Nat.min_eq_left (Nat.le_of_lt hblt)
    rw [hmin, Nat.succ_mul]
    omega

/-- Concatenating the first j batches restores the first j * bs sliced
records. -/
theorem chunks_take_join {α : Type} (bs : Nat) (hbs : 0 < bs) :
    ∀ (j : Nat) (l : List α), ((chunks bs l).take j).flatten = l.take (j * bs) := by
  intro j
  induction j with
  | zero => intro l; simp
  | succ j ih =>
    intro l
    match l with
    | [] => rw [chunks_nil]; simp
    | x :: xs =>
      rw [chunks_cons bs (Nat.pos_iff_ne_zero.mp hbs) (x :: xs) (by simp)]
      rw [List.take_succ_cons, List.flatten_cons, ih, Nat.succ_mul,
        Nat.add_comm (j * bs) bs, List.take_add]

/-- Host creation keeps the batch size. -/
theorem assignIds_length : ∀ (start : Nat) (l : List WallRecord),
    (assignIds start l).length = l.length := by
  intro start l
  induction l generalizing start with
  | nil => rfl
  | cons r rs ih => simp [assignIds, ih]

/-- Host creation distributes over concatenation, the identity supply
advancing by the length of the first part. -/
theorem assignIds_append : ∀ (a b : List WallRecord) (start : Nat),
    assignIds start (a ++ b) = assignIds start a ++ assignIds (start + a.length) b := by
  intro a
  induction a with
  | nil => intro b start; simp [assignIds]
  | cons r rs ih =>
    intro b start
    simp [assignIds, ih, Nat.add_assoc, Nat.add_comm 1 rs.length]

/-- Stripping identity twice is the same as stripping it once. -/
theorem stripId_idem (r : WallRecord) : stripId (stripId r) = stripId r := by
  simp [stripId, List.filter_filter]

/-- A host-created record carries the submitted non-identity fields
unchanged: stripping its identity recovers the stripped submission. -/
theorem stripId_hostCreate (n : Nat) (r : WallRecord) :
    stripId (hostCreateRecord n r) = stripId r := by
  have h1 : stripId (("_id", JVal.str (toString n)) :: stripId r) = stripId (stripId r) := by
    simp only [stripId, List.filter_cons]
    simp
  rw [hostCreateRecord, h1, stripId_idem]

/-- The non-identity fields of a created batch are those of the
submitted batch, record for record. -/
theorem map_stripId_assignIds : ∀ (start : Nat) (l : List WallRecord),
    (assignIds start l).map stripId = l.map stripId := by
  intro start l
  induction l generalizing start with
  | nil => rfl
  | cons r rs ih => simp [assignIds, stripId_hostCreate, ih]

/-- There is one callsSpec entry per batch. -/
theorem callsSpec_length : ∀ (base : Nat) (bs : List (List WallRecord)),
    (callsSpec base bs).length = bs.length := by
  intro base bs
  induction bs generalizing base with
  | nil => rfl
  | cons b rest ih => simp [callsSpec, ih]

/-- The batches carried by the callsSpec entries are the given batches,
in order. -/
theorem callsSpec_map_snd : ∀ (base : Nat) (bs : List (List WallRecord)),
    (callsSpec base bs).map Prod.snd = bs := by
  intro base bs
  induction bs generalizing base with
  | nil => rfl
  | cons b rest ih => simp [callsSpec, ih]

/-- The wall-collection size recorded by the j-th callsSpec entry is the
base size plus the sizes of the earlier batches. -/
theorem callsSpec_get_fst : ∀ (bs : List (List WallRecord)) (base j : Nat)
    (hj : j < (callsSpec base bs).length),
    ((callsSpec base bs).get ⟨j, hj⟩).1 = base + ((bs.take j).map List.length).sum := by
  intro bs
  induction bs with
  | nil => intro base j hj; simp [callsSpec] at hj
  | cons b rest ih =>
    intro base j hj
    match j with
    | 0 => simp [callsSpec]
    | j + 1 =>
      simp only [callsSpec] at hj ⊢
      rw [List.length_cons] at hj
      rw [List.get_cons_succ, ih (base + b.length) j (by omega)]
      simp [List.take_succ_cons, Nat.add_assoc]

/-- The batch loop when the host accepts every call: one call per
batch, the created count grows by every batch size, no error, and the
destination scene ends with every batch appended in order. -/
theorem runImportBatches_ok (ok : Nat → Bool) (emsg : Nat → String)
    (hok : ∀ i, ok i = true) :
    ∀ (bs : List (List WallRecord)) (ids idx created : Nat) (s : Scene),
      runImportBatches ok emsg ids idx created s bs =
        ⟨callsSpec s.walls.length bs, created + (bs.map List.length).sum, none,
         { s with walls := s.walls ++ assignIds ids bs.flatten }⟩ := by
  intro bs
  induction bs with
  | nil =>
    intro ids idx created s
    simp [runImportBatches, callsSpec, assignIds]
  | cons b rest ih =>
    intro ids idx created s
    rw [runImportBatches, hok idx]
    simp only [if_true]
    rw [ih]
    simp only [BatchRun.mk.injEq]
    refine ⟨?_, ?_, trivial, ?_⟩
    · simp only [callsSpec, List.cons.injEq, true_and]
      have hlen : ({ s with walls := s.walls ++ assignIds ids b } : Scene).walls.length
          = s.walls.length + b.length := by
        simp [assignIds_length]
      rw [hlen]
    · simp only [List.map_cons, List.sum_cons]
      omega
    · simp only [List.flatten_cons, assignIds_append, Scene.mk.injEq, true_and, and_true]
      rw [List.append_assoc]

/-- The batch loop when the host rejects the (j+1)-st call after
accepting the first j: the first j+1 calls are issued, the created
count is the total size of the first j batches, the host's error is
surfaced, and the destination scene ends with exactly the first j
batches appended (nothing rolled back, nothing retried). -/
theorem runImportBatches_fail (ok : Nat → Bool) (emsg : Nat → String) :
    ∀ (j : Nat) (bs : List (List WallRecord)) (ids idx created : Nat) (s : Scene),
      (∀ i, i < j → ok (idx + i) = true) → ok (idx + j) = false → j < bs.length →
      runImportBatches ok emsg ids idx created s bs =
        ⟨callsSpec s.walls.length (bs.take (j + 1)),
         created + ((bs.take j).map List.length).sum,
         some (emsg (idx + j)),
         { s with walls := s.walls ++ assignIds ids (bs.take j).flatten }⟩ := by
  intro j
  induction j with
  | zero =>
    intro bs ids idx created s hearly hfail hlen
    match bs with
    | [] => simp at hlen
    | b :: rest =>
      rw [Nat.add_zero] at hfail
      rw [runImportBatches, hfail]
      simp [callsSpec, assignIds]
  | succ j ih =>
    intro bs ids idx created s hearly hfail hlen
    match bs with
    | [] => simp at hlen
    | b :: rest =>
      have h0 : ok idx = true := by
        have := hearly 0 (by omega)
        simpa using this
      rw [runImportBatches, h0]
      simp only [if_true]
      rw [ih rest (ids + b.length) (idx + 1) (created + b.length) _ ?_ ?_ ?_]
      · simp only [List.take_succ_cons, BatchRun.mk.injEq]
        refine ⟨?_, ?_, ?_, ?_⟩
        · simp only [callsSpec, List.cons.injEq, true_and]
          have hlen2 : ({ s with walls := s.walls ++ assignIds ids b } : Scene).walls.length
              = s.walls.length + b.length := by
            simp [assignIds_length]
          rw [hlen2]
        · simp only [List.map_cons, List.sum_cons]
          omega
        · have e : idx + 1 + j = idx + (j + 1) := by omega
          rw [e]
        · simp only [List.flatten_cons, assignIds_append, Scene.mk.injEq, true_and, and_true]
          rw [List.append_assoc]
      · intro i hi
        have hh := hearly (i + 1) (by omega)
        have e : idx + (i + 1) = idx + 1 + i := by omega
        rw [e] at hh
        exact hh
      · have e : idx + (j + 1) = idx + 1 + j := by omega
        rw [← e]
        exact hfail
      · simpa using Nat.lt_of_succ_lt_succ hlen

/-- Stripping identity of every record twice equals stripping once,
record for record. -/
theorem map_stripId_stripId (l : List WallRecord) :
    (l.map stripId).map stripId = l.map stripId := by
  induction l with
  | nil => rfl
  | cons r rs ih => simp [stripId_idem, ih]

/-- C1: importing a WallBundle of N well-formed records into an empty
destination scene (identity stripping, then batched creation) and then
re-serializing that scene's wall collection yields exactly N records
whose non-identity fields equal the originals' field for field (only
the host-assigned identity fields may differ). -/
theorem c1_roundtrip (walls : List WallRecord) (s : Scene) (ok : Nat → Bool)
    (emsg : Nat → String) (ids : Nat) (confirm confirm2 : Bool)
    (hw : s.walls = []) (hpad : s.padding = 0) (hok : ∀ i, ok i = true) :
    ∃ out : List WallRecord,
      (getWallsJson (processWallImport ok emsg ids (some s) confirm
          (JsonVal.arr walls)).final confirm2).result = Except.ok out ∧
      out.length = walls.length ∧
      out.map stripId = walls.map stripId := by
  have hfin : (processWallImport ok emsg ids (some s) confirm (JsonVal.arr walls)).final
      = some { s with walls := (s.walls ++ assignIds ids (chunks 100 (walls.map stripId)).flatten) } := by
    simp [processWallImport, hpad, runImportBatches_ok ok emsg hok]
  rw [hfin]
  refine ⟨assignIds ids ((chunks 100 (walls.map stripId)).flatten), ?_, ?_, ?_⟩
  · simp [getWallsJson, hpad, hw]
  · rw [assignIds_length, chunks_join 100 (by omega), List.length_map]
  · rw [map_stripId_assignIds, chunks_join 100 (by omega), map_stripId_stripId]

/-- Witness for C1: a one-record bundle imported into the empty scene
round-trips with its non-identity fields intact. -/
theorem c1_roundtrip_witness :
    ∃ out : List WallRecord,
      (getWallsJson (processWallImport (fun _ => true) (fun _ => ("e")) 0 (some sEmpty) true
          (JsonVal.arr [wallRecA])).final true).result = Except.ok out ∧
      out.length = [wallRecA].length ∧
      out.map stripId = [wallRecA].map stripId :=
  c1_roundtrip [wallRecA] sEmpty (fun _ => true) (fun _ => ("e")) 0 true true rfl rfl
    (fun _ => rfl)

/-- C2: on an all-succeeding run (zero padding, so the import
proceeds), a payload of N wall records leads to exactly ceil(N/100)
creation calls, each carrying at most 100 records; the calls are issued
sequentially, each only after all earlier batches are committed (the
destination wall count recorded at the j-th call is the initial count
plus j*100); and the reported created count is N with no error. -/
theorem c2_batching (walls : List WallRecord) (s : Scene) (ok : Nat → Bool)
    (emsg : Nat → String) (ids : Nat) (confirm : Bool)
    (hpad : s.padding = 0) (hok : ∀ i, ok i = true) :
    (processWallImport ok emsg ids (some s) confirm (JsonVal.arr walls)).calls.length
        = (walls.length + 99) / 100 ∧
    (∀ c ∈ (processWallImport ok emsg ids (some s) confirm (JsonVal.arr walls)).calls,
        c.2.length ≤ 100) ∧
    (processWallImport ok emsg ids (some s) confirm (JsonVal.arr walls)).created
        = walls.length ∧
    (processWallImport ok emsg ids (some s) confirm (JsonVal.arr walls)).err = none ∧
    (∀ (j : Nat)
        (hj : j < (processWallImport ok emsg ids (some s) confirm
          (JsonVal.arr walls)).calls.length),
        ((processWallImport ok emsg ids (some s) confirm
          (JsonVal.arr walls)).calls.get ⟨j, hj⟩).1 = s.walls.length + j * 100) := by
  have hcalls : (processWallImport ok emsg ids (some s) confirm (JsonVal.arr walls)).calls
      = callsSpec s.walls.length (chunks 100 (walls.map stripId)) := by
    simp [processWallImport, hpad, runImportBatches_ok ok emsg hok]
  have hcreated : (processWallImport ok emsg ids (some s) confirm (JsonVal.arr walls)).created
      = ((chunks 100 (walls.map stripId)).map List.length).sum := by
    simp [processWallImport, hpad, runImportBatches_ok ok emsg hok]
  have herr : (processWallImport ok emsg ids (some s) confirm (JsonVal.arr walls)).err
      = none := by
    simp [processWallImport, hpad, runImportBatches_ok ok emsg hok]
  have hchlen : (chunks 100 (walls.map stripId)).length = (walls.length + 99) / 100 := by
    rw [chunks_length 100 (by omega), List.length_map]
    have e : walls.length + 100 - 1 = walls.length + 99 := by omega
    rw [e]
  refine ⟨?_, ?_, ?_, herr, ?_⟩
  · rw [hcalls, callsSpec_length, hchlen]
  · intro c hc
    rw [hcalls] at hc
    have hsnd : c.2 ∈ (callsSpec s.walls.length (chunks 100 (walls.map stripId))).map
        Prod.snd := List.mem_map_of_mem Prod.snd hc
    rw [callsSpec_map_snd] at hsnd
    exact chunks_length_le 100 (by omega) (walls.map stripId) c.2 hsnd
  · rw [hcreated, ← List.length_flatten, chunks_join 100 (by omega), List.length_map]
  · intro j
    rw [hcalls]
    intro hj
    have hj3 : j < (chunks 100 (walls.map stripId)).length := by
      rw [← callsSpec_length s.walls.length]; exact hj
    rw [callsSpec_get_fst, chunks_take_sum 100 (by omega) j (walls.map stripId) hj3]

/-- Witness for C2: a one-record bundle on an all-succeeding run issues
one call and reports one created record. -/
theorem c2_batching_witness :
    (processWallImport (fun _ => true) (fun _ => ("e")) 0 (some sEmpty) true
        (JsonVal.arr [wallRecA])).created = [wallRecA].length :=
  (c2_batching [wallRecA] sEmpty (fun _ => true) (fun _ => ("e")) 0 true rfl
    (fun _ => rfl)).2.2.1

/-- C3: when the k-th creation call fails after the first k-1 all
succeeded (bundle larger than one batch, 1 <= k <= number of batches),
the import reports exactly (k-1)*100 created records, surfaces the
host's error, issues exactly k calls (no retries), and leaves the first
(k-1)*100 created records in the destination scene (no rollback),
finishing the operation rather than rethrowing. -/
theorem c3_partial_commit (walls : List WallRecord) (s : Scene) (ok : Nat → Bool)
    (emsg : Nat → String) (ids : Nat) (confirm : Bool) (k : Nat)
    (hpad : s.padding = 0) (hN : 100 < walls.length)
    (hk1 : 1 ≤ k) (hk2 : k ≤ (walls.length + 99) / 100)
    (hearly : ∀ i, i < k - 1 → ok i = true) (hfail : ok (k - 1) = false) :
    (processWallImport ok emsg ids (some s) confirm (JsonVal.arr walls)).created
        = (k - 1) * 100 ∧
    (processWallImport ok emsg ids (some s) confirm (JsonVal.arr walls)).err
        = some (emsg (k - 1)) ∧
    (processWallImport ok emsg ids (some s) confirm (JsonVal.arr walls)).calls.length = k ∧
    (processWallImport ok emsg ids (some s) confirm (JsonVal.arr walls)).final
        = some { s with walls := (s.walls ++ assignIds ids ((walls.map stripId).take ((k - 1) * 100))) } ∧
    (processWallImport ok emsg ids (some s) confirm (JsonVal.arr walls)).status
        = ImpStatus.done := by
  have hchlen : (chunks 100 (walls.map stripId)).length = (walls.length + 99) / 100 := by
    rw [chunks_length 100 (by omega), List.length_map]
    have e : walls.length + 100 - 1 = walls.length + 99 := by omega
    rw [e]
  have hjlen : k - 1 < (chunks 100 (walls.map stripId)).length := by
    rw [hchlen]; omega
  have hearly2 : ∀ i, i < k - 1 → ok (0 + i) = true := by
    intro i hi
    rw [Nat.zero_add]
    exact hearly i hi
  have hfail2 : ok (0 + (k - 1)) = false := by
    rw [Nat.zero_add]; exact hfail
  have hrun := runImportBatches_fail ok emsg (k - 1) (chunks 100 (walls.map stripId))
    ids 0 0 s hearly2 hfail2 hjlen
  have hsum := chunks_take_sum 100 (by omega) (k - 1) (walls.map stripId) hjlen
  have hjoin := chunks_take_join 100 (by omega) (k - 1) (walls.map stripId)
  refine ⟨?_, ?_, ?_, ?_, ?_⟩
  · have : (processWallImport ok emsg ids (some s) confirm (JsonVal.arr walls)).created
        = (((chunks 100 (walls.map stripId)).take (k - 1)).map List.length).sum := by
      simp [processWallImport, hpad, hrun]
    rw [this, hsum]
  · simp [processWallImport, hpad, hrun]
  · have : (processWallImport ok emsg ids (some s) confirm (JsonVal.arr walls)).calls
        = callsSpec s.walls.length ((chunks 100 (walls.map stripId)).take (k - 1 + 1)) := by
      simp [processWallImport, hpad, hrun]
    rw [this, callsSpec_length, List.length_take]
    rw [hchlen]
    omega
  · have : (processWallImport ok emsg ids (some s) confirm (JsonVal.arr walls)).final
        = some { s with walls := (s.walls ++ assignIds ids ((chunks 100 (walls.map stripId)).take (k - 1)).flatten) } := by
      simp [processWallImport, hpad, hrun]
    rw [this, hjoin]
  · simp [processWallImport, hpad, hrun]

/-- Witness for C3: a 101-record bundle whose first creation call fails
commits zero records. -/
theorem c3_partial_commit_witness :
    (processWallImport (fun _ => false) (fun _ => ("boom")) 0 (some sEmpty) true
        (JsonVal.arr wallsW)).created = (1 - 1) * 100 :=
  (c3_partial_commit wallsW sEmpty (fun _ => false) (fun _ => ("boom")) 0 true 1 rfl
    (by simp [wallsW]) (by omega) (by simp [wallsW])
    (fun i hi => absurd hi (by omega)) rfl).1

/-- C4: with non-zero scene padding both wall import and wall export
surface the blocking confirmation and, when it is declined, abort with
no creation call issued and the scene untouched (import) and no output
produced (export); with zero padding neither direction asks and both
proceed. -/
theorem c4_padding_gate (s t : Scene) (walls : List WallRecord) (ok : Nat → Bool)
    (emsg : Nat → String) (ids : Nat) (confirm : Bool)
    (hs : s.padding ≠ 0) (ht : t.padding = 0) :
    (processWallImport ok emsg ids (some s) false (JsonVal.arr walls)).asked = true ∧
    (processWallImport ok emsg ids (some s) false (JsonVal.arr walls)).status
        = ImpStatus.aborted ∧
    (processWallImport ok emsg ids (some s) false (JsonVal.arr walls)).calls = [] ∧
    (processWallImport ok emsg ids (some s) false (JsonVal.arr walls)).created = 0 ∧
    (processWallImport ok emsg ids (some s) false (JsonVal.arr walls)).final = some s ∧
    (getWallsJson (some s) false).asked = true ∧
    (getWallsJson (some s) false).result = Except.error ("Wall export cancelled.") ∧
    (processWallImport ok emsg ids (some t) confirm (JsonVal.arr walls)).asked = false ∧
    (processWallImport ok emsg ids (some t) confirm (JsonVal.arr walls)).status
        = ImpStatus.done ∧
    (getWallsJson (some t) confirm).asked = false ∧
    (getWallsJson (some t) confirm).result = Except.ok t.walls := by
  refine ⟨?_, ?_, ?_, ?_, ?_, ?_, ?_, ?_, ?_, ?_, ?_⟩ <;>
    simp [processWallImport, getWallsJson, hs, ht]

/-- Witness for C4: the quarter-padding scene declines and the export
is cancelled. -/
theorem c4_padding_gate_witness :
    (getWallsJson (some sPad) false).result = Except.error ("Wall export cancelled.") :=
  (c4_padding_gate sPad sEmpty [] (fun _ => true) (fun _ => ("e")) 0 true
    (by norm_num [sPad]) rfl).2.2.2.2.2.2.1

/-- The minX component of the bounds fold only depends on the minX
accumulator. -/
theorem foldl_boundsStep_minX (ts : List Tile) : ∀ b : Bounds,
    (ts.foldl boundsStep b).minX
      = ts.foldl (fun a t => a.jmin (XNum.fin t.effX)) b.minX := by
  induction ts with
  | nil => intro b; rfl
  | cons t rest ih =>
    intro b
    rw [List.foldl_cons, List.foldl_cons, ih]
    rfl

/-- The minY component of the bounds fold only depends on the minY
accumulator. -/
theorem foldl_boundsStep_minY (ts : List Tile) : ∀ b : Bounds,
    (ts.foldl boundsStep b).minY
      = ts.foldl (fun a t => a.jmin (XNum.fin t.effY)) b.minY := by
  induction ts with
  | nil => intro b; rfl
  | cons t rest ih =>
    intro b
    rw [List.foldl_cons, List.foldl_cons, ih]
    rfl

/-- The maxX component of the bounds fold only depends on the maxX
accumulator. -/
theorem foldl_boundsStep_maxX (ts : List Tile) : ∀ b : Bounds,
    (ts.foldl boundsStep b).maxX
      = ts.foldl (fun a t => a.jmax (XNum.fin (t.effX + t.effWidth))) b.maxX := by
  induction ts with
  | nil => intro b; rfl
  | cons t rest ih =>
    intro b
    rw [List.foldl_cons, List.foldl_cons, ih]
    rfl

/-- The maxY component of the bounds fold only depends on the maxY
accumulator. -/
theorem foldl_boundsStep_maxY (ts : List Tile) : ∀ b : Bounds,
    (ts.foldl boundsStep b).maxY
      = ts.foldl (fun a t => a.jmax (XNum.fin (t.effY + t.effHeight))) b.maxY := by
  induction ts with
  | nil => intro b; rfl
  | cons t rest ih =>
    intro b
    rw [List.foldl_cons, List.foldl_cons, ih]
    rfl

/-- A Math.min fold seeded with a finite value stays finite and
computes the integer minimum fold. -/
theorem foldl_jmin_fin (f : Tile → Int) (ts : List Tile) : ∀ a : Int,
    ts.foldl (fun b t => b.jmin (XNum.fin (f t))) (XNum.fin a)
      = XNum.fin (ts.foldl (fun b t => min b (f t)) a) := by
  induction ts with
  | nil => intro a; rfl
  | cons t rest ih =>
    intro a
    rw [List.foldl_cons, List.foldl_cons]
    have h : (XNum.fin a).jmin (XNum.fin (f t)) = XNum.fin (min a (f t)) := rfl
    rw [h, ih]

/-- A Math.max fold seeded with a finite value stays finite and
computes the integer maximum fold. -/
theorem foldl_jmax_fin (f : Tile → Int) (ts : List Tile) : ∀ a : Int,
    ts.foldl (fun b t => b.jmax (XNum.fin (f t))) (XNum.fin a)
      = XNum.fin (ts.foldl (fun b t => max b (f t)) a) := by
  induction ts with
  | nil => intro a; rfl
  | cons t rest ih =>
    intro a
    rw [List.foldl_cons, List.foldl_cons]
    have h : (XNum.fin a).jmax (XNum.fin (f t)) = XNum.fin (max a (f t)) := rfl
    rw [h, ih]

/-- The first-pass minX of a non-empty tile list is the integer minimum
fold of the effective x coordinates. -/
theorem rawBounds_minX (t0 : Tile) (rest : List Tile) :
    (rawBounds (t0 :: rest)).minX
      = XNum.fin (rest.foldl (fun a t => min a t.effX) t0.effX) := by
  rw [rawBounds, foldl_boundsStep_minX, List.foldl_cons]
  exact foldl_jmin_fin (fun t => t.effX) rest t0.effX

/-- The first-pass minY of a non-empty tile list is the integer minimum
fold of the effective y coordinates. -/
theorem rawBounds_minY (t0 : Tile) (rest : List Tile) :
    (rawBounds (t0 :: rest)).minY
      = XNum.fin (rest.foldl (fun a t => min a t.effY) t0.effY) := by
  rw [rawBounds, foldl_boundsStep_minY, List.foldl_cons]
  exact foldl_jmin_fin (fun t => t.effY) rest t0.effY

/-- The first-pass maxX of a non-empty tile list is the integer maximum
fold of the effective x-plus-width extents. -/
theorem rawBounds_maxX (t0 : Tile) (rest : List Tile) :
    (rawBounds (t0 :: rest)).maxX
      = XNum.fin (rest.foldl (fun a t => max a (t.effX + t.effWidth))
          (t0.effX + t0.effWidth)) := by
  rw [rawBounds, foldl_boundsStep_maxX, List.foldl_cons]
  exact foldl_jmax_fin (fun t => t.effX + t.effWidth) rest (t0.effX + t0.effWidth)

/-- The first-pass maxY of a non-empty tile list is the integer maximum
fold of the effective y-plus-height extents. -/
theorem rawBounds_maxY (t0 : Tile) (rest : List Tile) :
    (rawBounds (t0 :: rest)).maxY
      = XNum.fin (rest.foldl (fun a t => max a (t.effY + t.effHeight))
          (t0.effY + t0.effHeight)) := by
  rw [rawBounds, foldl_boundsStep_maxY, List.foldl_cons]
  exact foldl_jmax_fin (fun t => t.effY + t.effHeight) rest (t0.effY + t0.effHeight)

/-- A minimum fold is at most its seed. -/
theorem foldl_min_le_init (f : Tile → Int) (ts : List Tile) : ∀ a : Int,
    ts.foldl (fun b t => min b (f t)) a ≤ a := by
  induction ts with
  | nil => intro a; exact le_refl a
  | cons t rest ih =>
    intro a
    rw [List.foldl_cons]
    exact le_trans (ih (min a (f t))) (min_le_left a (f t))

/-- A minimum fold is at most the value of every list member. -/
theorem foldl_min_le_mem (f : Tile → Int) (ts : List Tile) : ∀ (a : Int), ∀ t ∈ ts,
    ts.foldl (fun b t => min b (f t)) a ≤ f t := by
  induction ts with
  | nil => intro a t ht; cases ht
  | cons u rest ih =>
    intro a t ht
    rw [List.foldl_cons]
    rcases List.mem_cons.mp ht with h | h
    · subst h
      exact le_trans (foldl_min_le_init f rest (min a (f t))) (min_le_right a (f t))
    · exact ih (min a (f u)) t h

/-- A minimum fold is its seed or the value of some list member. -/
theorem foldl_min_attained (f : Tile → Int) (ts : List Tile) : ∀ a : Int,
    ts.foldl (fun b t => min b (f t)) a = a ∨
      ∃ t ∈ ts, ts.foldl (fun b t => min b (f t)) a = f t := by
  induction ts with
  | nil => intro a; exact Or.inl rfl
  | cons u rest ih =>
    intro a
    rw [List.foldl_cons]
    rcases ih (min a (f u)) with h | ⟨t, ht, he⟩
    · rcases min_choice a (f u) with hm | hm
      · exact Or.inl (by rw [h, hm])
      · exact Or.inr ⟨u, List.mem_cons_self u rest, by rw [h, hm]⟩
    · exact Or.inr ⟨t, List.mem_cons_of_mem u ht, he⟩

/-- A maximum fold is at least its seed. -/
theorem foldl_max_ge_init (f : Tile → Int) (ts : List Tile) : ∀ a : Int,
    a ≤ ts.foldl (fun b t => max b (f t)) a := by
  induction ts with
  | nil => intro a; exact le_refl a
  | cons t rest ih =>
    intro a
    rw [List.foldl_cons]
    exact le_trans (le_max_left a (f t)) (ih (max a (f t)))

/-- A maximum fold is at least the value of every list member. -/
theorem foldl_max_ge_mem (f : Tile → Int) (ts : List Tile) : ∀ (a : Int), ∀ t ∈ ts,
    f t ≤ ts.foldl (fun b t => max b (f t)) a := by
  induction ts with
  | nil => intro a t ht; cases ht
  | cons u rest ih =>
    intro a t ht
    rw [List.foldl_cons]
    rcases List.mem_cons.mp ht with h | h
    · subst h
      exact le_trans (le_max_right a (f t)) (foldl_max_ge_init f rest (max a (f t)))
    · exact ih (max a (f u)) t h

/-- A maximum fold is its seed or the value of some list member. -/
theorem foldl_max_attained (f : Tile → Int) (ts : List Tile) : ∀ a : Int,
    ts.foldl (fun b t => max b (f t)) a = a ∨
      ∃ t ∈ ts, ts.foldl (fun b t => max b (f t)) a = f t := by
  induction ts with
  | nil => intro a; exact Or.inl rfl
  | cons u rest ih =>
    intro a
    rw [List.foldl_cons]
    rcases ih (max a (f u)) with h | ⟨t, ht, he⟩
    · rcases max_choice a (f u) with hm | hm
      · exact Or.inl (by rw [h, hm])
      · exact Or.inr ⟨u, List.mem_cons_self u rest, by rw [h, hm]⟩
    · exact Or.inr ⟨t, List.mem_cons_of_mem u ht, he⟩

/-- The tile loop visits every tile: one step per tile. -/
theorem processTilesFrom_length (env : Nat → TileOutcome) (bd : Bounds) :
    ∀ (ts : List Tile) (i : Nat), (processTilesFrom env bd i ts).length = ts.length := by
  intro ts
  induction ts with
  | nil => intro i; rfl
  | cons t rest ih =>
    intro i
    simp [processTilesFrom, ih]

/-- The whole tile loop visits every tile. -/
theorem processTiles_length (env : Nat → TileOutcome) (bd : Bounds) (ts : List Tile) :
    (processTiles env bd ts).length = ts.length :=
  processTilesFrom_length env bd ts 0

/-- Each step of the tile loop is determined by its own tile and its
own collaborator outcome alone. -/
theorem processTilesFrom_get (env : Nat → TileOutcome) (bd : Bounds) :
    ∀ (ts : List Tile) (i j : Nat) (h1 : j < ts.length)
      (h2 : j < (processTilesFrom env bd i ts).length),
      (processTilesFrom env bd i ts).get ⟨j, h2⟩
        = tileStep env bd (i + j) (ts.get ⟨j, h1⟩) := by
  intro ts
  induction ts with
  | nil => intro i j h1 h2; simp at h1
  | cons t rest ih =>
    intro i j h1 h2
    match j with
    | 0 => simp [processTilesFrom]
    | j + 1 =>
      have h3 : j < rest.length := by
        simp only [List.length_cons] at h1
        omega
      have h4 : j < (processTilesFrom env bd (i + 1) rest).length := by
        rw [processTilesFrom_length]
        exact h3
      have hg := ih (i + 1) j h3 h4
      have he : i + 1 + j = i + (j + 1) := by omega
      rw [he] at hg
      exact hg

/-- Every step is counted by exactly one of the two counters. -/
theorem countP_isDrawn_add (steps : List TileStep) :
    steps.countP TileStep.isDrawn
      + steps.countP (fun st => !(TileStep.isDrawn st)) = steps.length := by
  induction steps with
  | nil => rfl
  | cons st rest ih =>
    rcases st with cmd | _ <;>
      simp only [List.countP_cons, List.length_cons, TileStep.isDrawn, Bool.not_true,
        Bool.not_false] at ih ⊢ <;>
      simp <;> omega

/-- A tile without a resolvable image source is counted as failed. -/
theorem tileStep_none (env : Nat → TileOutcome) (bd : Bounds) (i : Nat) (t : Tile)
    (h : t.textureSrc = none) : tileStep env bd i t = TileStep.failed := by
  simp [tileStep, h]

/-- A tile whose source resolves and whose load and draw succeed is
drawn at the offset-adjusted destination rectangle. -/
theorem tileStep_drawn (env : Nat → TileOutcome) (bd : Bounds) (i : Nat) (t : Tile)
    (src : String) (hs : t.textureSrc = some src) (he : env i = TileOutcome.ok) :
    tileStep env bd i t = TileStep.drawn ⟨(XNum.fin t.effX).jsub bd.minX,
      (XNum.fin t.effY).jsub bd.minY, t.effWidth, t.effHeight⟩ := by
  simp [tileStep, hs, he]

/-- C9: every tile of the collection contributes exactly one unit to
exactly one of the two counters, so loadedCount plus failedCount equals
the number of tiles processed, the loop visits every tile, and each
tile's step is determined by that tile and its own collaborator outcome
alone, so no tile's failure prevents a later tile from being
processed. -/
theorem c9_counters (env : Nat → TileOutcome) (bd : Bounds) (ts : List Tile) :
    (processTiles env bd ts).length = ts.length ∧
    loadedCount (processTiles env bd ts) + failedCount (processTiles env bd ts)
        = ts.length ∧
    ∀ (j : Nat) (h1 : j < ts.length) (h2 : j < (processTiles env bd ts).length),
      (processTiles env bd ts).get ⟨j, h2⟩ = tileStep env bd j (ts.get ⟨j, h1⟩) := by
  refine ⟨processTiles_length env bd ts, ?_, ?_⟩
  · rw [loadedCount, failedCount, countP_isDrawn_add, processTiles_length]
  · intro j h1 h2
    have hg := processTilesFrom_get env bd ts 0 j h1 h2
    simpa using hg

/-- Witness for C9: a mixed collection (one drawable tile, one with no
source) has its two counters summing to its size. -/
theorem c9_counters_witness :
    loadedCount (processTiles allOk bdUnit [tileA, tileNoSrc])
      + failedCount (processTiles allOk bdUnit [tileA, tileNoSrc])
      = [tileA, tileNoSrc].length :=
  (c9_counters allOk bdUnit [tileA, tileNoSrc]).2.1

/-- C8: the image source of a tile is resolved by trying, in this fixed
order, the direct texture reference, the nested document texture
reference, the direct image reference, then the nested document image
reference, the first non-empty value winning; in particular a tile
carrying both a direct and a nested-document texture reference resolves
to the direct one, and a tile where nothing resolves is counted as a
failed step without aborting the loop. -/
theorem c8_source_resolution :
    (∀ (t : Tile) (s : String), t.texSrc = some s → s ≠ "" → t.textureSrc = some s) ∧
    (∀ (t : Tile) (s : String), truthyStr t.texSrc = false →
        t.doc.bind TileDoc.texSrc = some s → s ≠ "" → t.textureSrc = some s) ∧
    (∀ (t : Tile) (s : String), truthyStr t.texSrc = false →
        truthyStr (t.doc.bind TileDoc.texSrc) = false →
        t.img = some s → s ≠ "" → t.textureSrc = some s) ∧
    (∀ (t : Tile) (s : String), truthyStr t.texSrc = false →
        truthyStr (t.doc.bind TileDoc.texSrc) = false → truthyStr t.img = false →
        t.doc.bind TileDoc.img = some s → s ≠ "" → t.textureSrc = some s) ∧
    (∀ t : Tile, truthyStr t.texSrc = false →
        truthyStr (t.doc.bind TileDoc.texSrc) = false → truthyStr t.img = false →
        truthyStr (t.doc.bind TileDoc.img) = false → t.textureSrc = none) ∧
    (∀ (env : Nat → TileOutcome) (bd : Bounds) (ts : List Tile) (j : Nat)
        (h1 : j < ts.length) (h2 : j < (processTiles env bd ts).length),
        (ts.get ⟨j, h1⟩).textureSrc = none →
        (processTiles env bd ts).get ⟨j, h2⟩ = TileStep.failed ∧
        (processTiles env bd ts).length = ts.length) := by
  refine ⟨?_, ?_, ?_, ?_, ?_, ?_⟩
  · intro t s hsome hne
    have hts : truthyStr (some s) = true := by
      simp [truthyStr, hne]
    simp [Tile.textureSrc, hsome, hts]
  · intro t s h1 hsome hne
    have hts : truthyStr (some s) = true := by
      simp [truthyStr, hne]
    simp [Tile.textureSrc, h1, hsome, hts]
  · intro t s h1 h2 hsome hne
    have hts : truthyStr (some s) = true := by
      simp [truthyStr, hne]
    simp [Tile.textureSrc, h1, h2, hsome, hts]
  · intro t s h1 h2 h3 hsome hne
    have hts : truthyStr (some s) = true := by
      simp [truthyStr, hne]
    simp [Tile.textureSrc, h1, h2, h3, hsome, hts]
  · intro t h1 h2 h3 h4
    simp [Tile.textureSrc, h1, h2, h3, h4]
  · intro env bd ts j h1 h2 hnone
    refine ⟨?_, processTiles_length env bd ts⟩
    have hg := processTilesFrom_get env bd ts 0 j h1 h2
    exact hg.trans (tileStep_none env bd (0 + j) _ hnone)

/-- Witness for C8: a tile with both a direct and a nested-document
texture reference resolves to the direct one. -/
theorem c8_source_resolution_witness :
    tileBoth.textureSrc = some ("direct.png") :=
  c8_source_resolution.1 tileBoth ("direct.png") rfl (by decide)

/-- C10: a direct x, y, width, or height equal to 0 is treated as
missing: the compositor falls back to the nested document's value (and
to 0 only when that is also absent or zero), so a tile with direct
x = 0 and nested document x = 5 is composited at x = 5, and a zero
coordinate is indistinguishable from a missing one. -/
theorem c10_falsy_zero (t : Tile) (d : TileDoc) (v : Int) :
    (({ t with x := some 0 } : Tile).effX = ({ t with x := none } : Tile).effX) ∧
    (({ t with y := some 0 } : Tile).effY = ({ t with y := none } : Tile).effY) ∧
    (({ t with width := some 0 } : Tile).effWidth
        = ({ t with width := none } : Tile).effWidth) ∧
    (({ t with height := some 0 } : Tile).effHeight
        = ({ t with height := none } : Tile).effHeight) ∧
    (t.x = some 0 → t.doc = some d → d.x = some v → v ≠ 0 → t.effX = v) ∧
    (t.x = some 0 → t.doc = none → t.effX = 0) ∧
    (t.x = some 0 → t.doc = some d → d.x = none → t.effX = 0) := by
  refine ⟨?_, ?_, ?_, ?_, ?_, ?_, ?_⟩ <;>
  · intros
    simp_all [Tile.effX, Tile.effY, Tile.effWidth, Tile.effHeight, jsOrNum]

/-- Witness for C10: the tile with direct x = 0 and nested document
x = 5 has effective x = 5. -/
theorem c10_falsy_zero_witness : tileDocX5.effX = 5 :=
  (c10_falsy_zero tileDocX5 ⟨some 5, none, none, none, none, none⟩ 5).2.2.2.2.1
    rfl rfl rfl (by decide)

/-- C5 counterexample: the bounds computation applied literally to the
empty tile collection does not yield a width of at least 1; the
Infinity seeds survive the loop, the degeneracy bump leaves maxX at
Infinity, and the resulting canvas width is Infinity minus Infinity,
that is NaN, which the JS ordering does not place at or above 1 (the
height is NaN for the same reason). -/
theorem c5_counterexample :
    canvasWidth (computeBounds ([] : List Tile)) = XNum.nan ∧
    (XNum.fin 1).jle (canvasWidth (computeBounds ([] : List Tile))) = false ∧
    canvasHeight (computeBounds ([] : List Tile)) = XNum.nan ∧
    (XNum.fin 1).jle (canvasHeight (computeBounds ([] : List Tile))) = false := by
  decide

/-- C5 (amended): a collection holding only a tile of effective width
and height 0 yields canvas dimensions of exactly 1 by 1, so a canvas of
at least 1 by 1 is allocated; the empty tile collection, however, never
reaches the bounds computation: exportSceneTilesAsImage returns early
with a no-tiles warning and allocates no canvas (and the bounds formula
applied directly to the empty collection would give NaN dimensions, not
at least 1, as the counterexample shows). -/
theorem c5_degeneracy (t : Tile) (s : Scene) (env : Nat → TileOutcome)
    (hw : t.effWidth = 0) (hh : t.effHeight = 0) (hs : s.tiles = []) :
    canvasWidth (computeBounds [t]) = XNum.fin 1 ∧
    canvasHeight (computeBounds [t]) = XNum.fin 1 ∧
    exportSceneTilesAsImage env (some s) = ExportResult.noTiles := by
  have hb : computeBounds [t] = ⟨XNum.fin t.effX, XNum.fin t.effY,
      XNum.fin (t.effX + 1), XNum.fin (t.effY + 1)⟩ := by
    simp [computeBounds, rawBounds, boundsStep, XNum.jmin, XNum.jmax, XNum.jle,
      XNum.jadd, hw, hh]
  refine ⟨?_, ?_, ?_⟩
  · rw [hb, canvasWidth]
    simp only [XNum.jsub, XNum.jneg, XNum.jadd, XNum.jceil]
    congr 1
    omega
  · rw [hb, canvasHeight]
    simp only [XNum.jsub, XNum.jneg, XNum.jadd, XNum.jceil]
    congr 1
    omega
  · simp [exportSceneTilesAsImage, hs]

/-- Witness for C5 (amended): the concrete zero-extent tile gives a
1-by-1 canvas. -/
theorem c5_degeneracy_witness :
    canvasWidth (computeBounds [ztile]) = XNum.fin 1 :=
  (c5_degeneracy ztile sEmpty allOk (by decide) (by decide) rfl).1

/-- C6: when the computed canvas dimensions of a non-empty tile set
exceed 16384 in either direction, the export fails with the size-limit
error before any canvas dimension is assigned; dimensions of exactly
16384 or less pass the check and the export proceeds to the tile
loop. -/
theorem c6_size_ceiling (sc : Scene) (env : Nat → TileOutcome) (wi hi : Int)
    (hne : sc.tiles ≠ [])
    (hw : canvasWidth (computeBounds sc.tiles) = XNum.fin wi)
    (hh : canvasHeight (computeBounds sc.tiles) = XNum.fin hi) :
    ((16384 < wi ∨ 16384 < hi) →
      exportSceneTilesAsImage env (some sc)
        = ExportResult.sizeLimit (XNum.fin wi) (XNum.fin hi)) ∧
    (wi ≤ 16384 → hi ≤ 16384 →
      exportSceneTilesAsImage env (some sc)
        = ExportResult.done (XNum.fin wi) (XNum.fin hi)
            (processTiles env (computeBounds sc.tiles) sc.tiles)) := by
  have hemp : sc.tiles.isEmpty = false := by
    cases he : sc.tiles with
    | nil => exact absurd he hne
    | cons a l => rfl
  constructor
  · intro hgt
    have hcond : ((XNum.fin wi).jgt (XNum.fin 16384)
        || (XNum.fin hi).jgt (XNum.fin 16384)) = true := by
      simp only [XNum.jgt]
      rcases hgt with hgt | hgt
      · rw [decide_eq_true hgt]
        rfl
      · rw [decide_eq_true hgt, Bool.or_true]
    simp [exportSceneTilesAsImage, hemp, hw, hh, hcond]
  · intro hw2 hh2
    have hcond : ((XNum.fin wi).jgt (XNum.fin 16384)
        || (XNum.fin hi).jgt (XNum.fin 16384)) = false := by
      simp only [XNum.jgt]
      rw [decide_eq_false (by omega), decide_eq_false (by omega)]
      rfl
    simp [exportSceneTilesAsImage, hemp, hw, hh, hcond]

/-- Witness for C6: the scene holding the 20000-unit-wide tile fails
with the size-limit error carrying the oversized dimensions. -/
theorem c6_size_ceiling_witness :
    exportSceneTilesAsImage allOk (some sBig)
      = ExportResult.sizeLimit (XNum.fin 20000) (XNum.fin 10) :=
  (c6_size_ceiling sBig allOk 20000 10 (by decide) (by decide) (by decide)).1
    (Or.inl (by omega))

/-- C7 counterexample: on the one-element tile set holding a zero-extent
tile at x = 3, computeBounds does not return the maximum of x plus
width over the tiles (which is 3): the degeneracy bump returns 4, so
the returned rectangle is not the tightest one for every non-empty
tile set, contradicting the claim as stated. -/
theorem c7_counterexample :
    (computeBounds [ztile]).maxX = XNum.fin 4 ∧
    ztile.effX + ztile.effWidth = 3 ∧
    (computeBounds [ztile]).maxX ≠ XNum.fin (ztile.effX + ztile.effWidth) := by
  decide

/-- C7 (amended): for every non-empty tile set whose effective extents
are non-degenerate on both axes (least coordinate strictly below
greatest coordinate-plus-extent), computeBounds returns the tightest
axis-aligned rectangle covering all effective tile extents: minX/minY
equal the minima over all (x, y) (lower bounds attained by some tile)
and maxX/maxY the maxima over all (x+width, y+height) (upper bounds
attained by some tile); every tile whose source resolves and loads is
drawn at offset (x - minX, y - minY) scaled to (width, height); and the
worked example of the claim computes exactly as stated.  On a
degenerate axis the returned maximum is the 1-unit bump above the
minimum rather than the true maximum (see the counterexample); that
restriction is the only correction. -/
theorem c7_bounds_draw (t0 : Tile) (rest : List Tile) (env : Nat → TileOutcome)
    (mX mY MX MY : Int)
    (hmX : mX = rest.foldl (fun a t => min a t.effX) t0.effX)
    (hmY : mY = rest.foldl (fun a t => min a t.effY) t0.effY)
    (hMX : MX = rest.foldl (fun a t => max a (t.effX + t.effWidth)) (t0.effX + t0.effWidth))
    (hMY : MY = rest.foldl (fun a t => max a (t.effY + t.effHeight)) (t0.effY + t0.effHeight))
    (hndX : mX < MX) (hndY : mY < MY) :
    (computeBounds (t0 :: rest)).minX = XNum.fin mX ∧
    (computeBounds (t0 :: rest)).minY = XNum.fin mY ∧
    (computeBounds (t0 :: rest)).maxX = XNum.fin MX ∧
    (computeBounds (t0 :: rest)).maxY = XNum.fin MY ∧
    (∀ t ∈ t0 :: rest, mX ≤ t.effX ∧ mY ≤ t.effY ∧
        t.effX + t.effWidth ≤ MX ∧ t.effY + t.effHeight ≤ MY) ∧
    ((∃ t ∈ t0 :: rest, t.effX = mX) ∧ (∃ t ∈ t0 :: rest, t.effY = mY) ∧
      (∃ t ∈ t0 :: rest, t.effX + t.effWidth = MX) ∧
      (∃ t ∈ t0 :: rest, t.effY + t.effHeight = MY)) ∧
    (∀ (j : Nat) (h1 : j < (t0 :: rest).length)
        (h2 : j < (processTiles env (computeBounds (t0 :: rest)) (t0 :: rest)).length)
        (src : String),
        ((t0 :: rest).get ⟨j, h1⟩).textureSrc = some src → env j = TileOutcome.ok →
        (processTiles env (computeBounds (t0 :: rest)) (t0 :: rest)).get ⟨j, h2⟩
          = TileStep.drawn ⟨XNum.fin (((t0 :: rest).get ⟨j, h1⟩).effX - mX),
              XNum.fin (((t0 :: rest).get ⟨j, h1⟩).effY - mY),
              ((t0 :: rest).get ⟨j, h1⟩).effWidth,
              ((t0 :: rest).get ⟨j, h1⟩).effHeight⟩) ∧
    (computeBounds [tileA, tileB]
        = ⟨XNum.fin 0, XNum.fin 0, XNum.fin 15, XNum.fin 25⟩ ∧
      processTiles allOk (computeBounds [tileA, tileB]) [tileA, tileB]
        = [TileStep.drawn ⟨XNum.fin 10, XNum.fin 20, 5, 5⟩,
           TileStep.drawn ⟨XNum.fin 0, XNum.fin 0, 2, 2⟩]) := by
  have hrawmX : (rawBounds (t0 :: rest)).minX = XNum.fin mX := by
    rw [rawBounds_minX, hmX]
  have hrawmY : (rawBounds (t0 :: rest)).minY = XNum.fin mY := by
    rw [rawBounds_minY, hmY]
  have hrawMX : (rawBounds (t0 :: rest)).maxX = XNum.fin MX := by
    rw [rawBounds_maxX, hMX]
  have hrawMY : (rawBounds (t0 :: rest)).maxY = XNum.fin MY := by
    rw [rawBounds_maxY, hMY]
  have hcX : ¬((XNum.fin MX).jle (XNum.fin mX) = true) := by
    simp only [XNum.jle, decide_eq_true_eq]
    omega
  have hcY : ¬((XNum.fin MY).jle (XNum.fin mY) = true) := by
    simp only [XNum.jle, decide_eq_true_eq]
    omega
  have hbmX : (computeBounds (t0 :: rest)).minX = XNum.fin mX := by
    simp only [computeBounds]
    exact hrawmX
  have hbmY : (computeBounds (t0 :: rest)).minY = XNum.fin mY := by
    simp only [computeBounds]
    exact hrawmY
  have hbMX : (computeBounds (t0 :: rest)).maxX = XNum.fin MX := by
    simp only [computeBounds]
    rw [hrawMX, hrawmX, if_neg hcX]
  have hbMY : (computeBounds (t0 :: rest)).maxY = XNum.fin MY := by
    simp only [computeBounds]
    rw [hrawMY, hrawmY, if_neg hcY]
  refine ⟨hbmX, hbmY, hbMX, hbMY, ?_, ?_, ?_, by decide⟩
  · intro t ht
    rcases List.mem_cons.mp ht with h | h
    · subst h
      refine ⟨?_, ?_, ?_, ?_⟩
      · rw [hmX]; exact foldl_min_le_init (fun u => u.effX) rest t.effX
      · rw [hmY]; exact foldl_min_le_init (fun u => u.effY) rest t.effY
      · rw [hMX]; exact foldl_max_ge_init (fun u => u.effX + u.effWidth) rest _
      · rw [hMY]; exact foldl_max_ge_init (fun u => u.effY + u.effHeight) rest _
    · refine ⟨?_, ?_, ?_, ?_⟩
      · rw [hmX]; exact foldl_min_le_mem (fun u => u.effX) rest t0.effX t h
      · rw [hmY]; exact foldl_min_le_mem (fun u => u.effY) rest t0.effY t h
      · rw [hMX]; exact foldl_max_ge_mem (fun u => u.effX + u.effWidth) rest _ t h
      · rw [hMY]; exact foldl_max_ge_mem (fun u => u.effY + u.effHeight) rest _ t h
  · refine ⟨?_, ?_, ?_, ?_⟩
    · rcases foldl_min_attained (fun u => u.effX) rest t0.effX with h | ⟨t, ht, he⟩
      · exact ⟨t0, List.mem_cons_self t0 rest, by rw [hmX, h]⟩
      · exact ⟨t, List.mem_cons_of_mem t0 ht, by rw [hmX, he]⟩
    · rcases foldl_min_attained (fun u => u.effY) rest t0.effY with h | ⟨t, ht, he⟩
      · exact ⟨t0, List.mem_cons_self t0 rest, by rw [hmY, h]⟩
      · exact ⟨t, List.mem_cons_of_mem t0 ht, by rw [hmY, he]⟩
    · rcases foldl_max_attained (fun u => u.effX + u.effWidth) rest
          (t0.effX + t0.effWidth) with h | ⟨t, ht, he⟩
      · exact ⟨t0, List.mem_cons_self t0 rest, by rw [hMX, h]⟩
      · exact ⟨t, List.mem_cons_of_mem t0 ht, by rw [hMX, he]⟩
    · rcases foldl_max_attained (fun u => u.effY + u.effHeight) rest
          (t0.effY + t0.effHeight) with h | ⟨t, ht, he⟩
      · exact ⟨t0, List.mem_cons_self t0 rest, by rw [hMY, h]⟩
      · exact ⟨t, List.mem_cons_of_mem t0 ht, by rw [hMY, he]⟩
  · intro j h1 h2 src hsrc henv
    have hg := processTilesFrom_get env (computeBounds (t0 :: rest)) (t0 :: rest) 0 j h1 h2
    have hstep := tileStep_drawn env (computeBounds (t0 :: rest)) (0 + j)
      ((t0 :: rest).get ⟨j, h1⟩) src hsrc (by rw [Nat.zero_add]; exact henv)
    rw [hbmX, hbmY] at hstep
    have hdx : (XNum.fin (((t0 :: rest).get ⟨j, h1⟩).effX)).jsub (XNum.fin mX)
        = XNum.fin (((t0 :: rest).get ⟨j, h1⟩).effX - mX) := by
      simp only [XNum.jsub, XNum.jneg, XNum.jadd]
      congr 1
    have hdy : (XNum.fin (((t0 :: rest).get ⟨j, h1⟩).effY)).jsub (XNum.fin mY)
        = XNum.fin (((t0 :: rest).get ⟨j, h1⟩).effY - mY) := by
      simp only [XNum.jsub, XNum.jneg, XNum.jadd]
      congr 1
    rw [hdx, hdy] at hstep
    exact hg.trans hstep

/-- Witness for C7 (amended): the spec's worked example, with both
tiles resolving and loading, has bounds 0,0,15,25 and draws at (10,20)
and (0,0). -/
theorem c7_bounds_draw_witness :
    computeBounds [tileA, tileB] = ⟨XNum.fin 0, XNum.fin 0, XNum.fin 15, XNum.fin 25⟩ ∧
    processTiles allOk (computeBounds [tileA, tileB]) [tileA, tileB]
      = [TileStep.drawn ⟨XNum.fin 10, XNum.fin 20, 5, 5⟩,
         TileStep.drawn ⟨XNum.fin 0, XNum.fin 0, 2, 2⟩] :=
  (c7_bounds_draw tileA [tileB] allOk 0 0 15 25 (by decide) (by decide) (by decide)
    (by decide) (by omega) (by omega)).2.2.2.2.2.2.2

end AutoWallCompanion
